import Mathlib

/-!
# Stable-hashing fingerprint engine: shallow embedding

This file embeds the `HashStable` implementations of
`compiler/rustc_query_system/src/ich/impls_syntax.rs` — the routines that
fingerprint attribute lists, single attributes (`hash_attr`), `SourceFile`
metadata and `rustc_feature::Features` — and proves the specified properties
about them.

Modelling choices:
* The `StableHasher` is modelled as a trace: each `hash_stable` call is a
  function producing the `List Nat` of data items it feeds to the hasher.
  Two values receive the same fingerprint exactly when they feed the hasher
  the same trace.
* Interned symbols, spans, hashes and fingerprints of nested values that the
  routines treat as atoms are modelled as `Nat`.
* A panicking assertion (`assert!`, `assert_matches!`, `unreachable!`,
  `debug_assert!`) aborts the computation; a routine that can assert returns
  `Option (List Nat)`, with `none` for the abort.  `debug_assert!` is active
  only under `cfg(debug_assertions)`, modelled as an explicit `dbg : Bool`
  build-flag parameter; `assert!`/`assert_matches!`/`unreachable!` fire in
  every build.
-/

/-- The session-scoped hashing context (`StableHashingContext`): the only
part the sampled routines consult is the attribute-ignore policy
`is_ignored_attr`, a predicate on interned attribute names. -/
structure StableHashingContext where
  is_ignored_attr : Nat → Bool

/-- `ast::AttrItem`: the normalized content of a normal attribute.
Modelled from the spec: the item's own `HashStable` instance is derived
outside the sampled sources; per the spec it hashes the attribute's
normalized content, with variable-length components length-prefixed.  We
model the path as its list of interned segment symbols and the remaining
argument content as one atom. -/
structure AttrItem where
  path : List Nat
  args : Nat
deriving DecidableEq, Repr

/-- `ast::NormalAttr`: the item plus the optional raw token stream that
lowering is supposed to have removed. -/
structure NormalAttr where
  item : AttrItem
  tokens : Option (List Nat)
deriving DecidableEq, Repr

/-- `ast::AttrKind`: a normal attribute or a documentation comment
(comment kind and symbol). -/
inductive AttrKind
  | normal (n : NormalAttr)
  | docComment (commentKind : Nat) (sym : Nat)
deriving DecidableEq, Repr

/-- `ast::AttrStyle`. -/
inductive AttrStyle
  | outer
  | inner
deriving DecidableEq, Repr

/-- `ast::Attribute`: kind, id (never hashed), style and span. -/
structure Attribute where
  kind : AttrKind
  id : Nat
  style : AttrStyle
  span : Nat
deriving DecidableEq, Repr

/-- `Attribute::is_doc_comment`. -/
def Attribute.is_doc_comment (a : Attribute) : Bool :=
  match a.kind with
  | .normal _ => false
  | .docComment _ _ => true

/-- `Attribute::ident`: the single segment of a normal attribute's path,
when the path has exactly one segment. -/
def Attribute.ident (a : Attribute) : Option Nat :=
  match a.kind with
  | .normal n =>
    match n.item.path with
    | [s] => some s
    | _ => none
  | .docComment _ _ => none

/-- The data an `AttrStyle` feeds to the hasher (its discriminant). -/
def styleTok : AttrStyle → Nat
  | .outer => 0
  | .inner => 1

/-- Trace of `AttrItem::hash_stable`.
Modelled from the spec: the derived instance is outside the sampled
sources; the spec requires variable-length sequences to be hashed with a
length first, then the elements, so the path contributes its length and
then its segments, followed by the argument atom. -/
def hashAttrItem (item : AttrItem) : List Nat :=
  item.path.length :: item.path ++ [item.args]

/-- The trace `hash_attr` produces for a normal, token-free attribute:
the item's trace, then the style, then the span. -/
def normalAttrTrace (item : AttrItem) (style : AttrStyle) (span : Nat) : List Nat :=
  hashAttrItem item ++ [styleTok style, span]

/-- `StableHashingContext::hash_attr` (`impls_syntax.rs:39-57`).
The two `debug_assert!`s (attribute not policy-ignored, not a doc comment)
are active only when `dbg` is set.  A doc-comment attribute hits
`unreachable!` in every build; a normal attribute still carrying a raw
token stream hits the `assert_matches!` in every build.  (In the source the
`assert_matches!` runs after the item/style/span were fed to the hasher,
but a panic discards the hasher, so the abort is modelled as producing no
trace at all.) -/
def hashAttr (hcx : StableHashingContext) (dbg : Bool) (attr : Attribute) :
    Option (List Nat) :=
  if dbg && (attr.ident.any fun i => hcx.is_ignored_attr i) then none
  else if dbg && attr.is_doc_comment then none
  else
    match attr.kind with
    | .normal n =>
      match n.tokens with
      | none => some (normalAttrTrace n.item attr.style attr.span)
      | some _ => none
    | .docComment _ _ => none

/-- The filter predicate of `[ast::Attribute]::hash_stable`
(`impls_syntax.rs:25-28`): an attribute is significant when it is neither a
doc comment nor policy-ignored. -/
def significantAttr (hcx : StableHashingContext) (attr : Attribute) : Bool :=
  !attr.is_doc_comment && !(attr.ident.any fun i => hcx.is_ignored_attr i)

/-- The filter of `[ast::Attribute]::hash_stable` (`impls_syntax.rs:23-29`):
keep attributes that are neither doc comments nor policy-ignored. -/
def filteredAttrs (hcx : StableHashingContext) (attrs : List Attribute) :
    List Attribute :=
  attrs.filter (significantAttr hcx)

/-- The loop of `[ast::Attribute]::hash_stable` (`impls_syntax.rs:32-34`):
hash each attribute of the filtered sequence in order, concatenating the
traces; abort if any single attribute aborts. -/
def hashAttrs (hcx : StableHashingContext) (dbg : Bool) :
    List Attribute → Option (List Nat)
  | [] => some []
  | a :: rest => do
    let t ← hashAttr hcx dbg a
    let ts ← hashAttrs hcx dbg rest
    pure (t ++ ts)

/-- `[ast::Attribute]::hash_stable` (`impls_syntax.rs:15-36`): an empty
list hashes just its length `0`; a non-empty list hashes the filtered
sequence's length and then each remaining attribute. -/
def hashAttrList (hcx : StableHashingContext) (dbg : Bool)
    (attrs : List Attribute) : Option (List Nat) :=
  if attrs.isEmpty then some [attrs.length]
  else
    let filtered := filteredAttrs hcx attrs
    (hashAttrs hcx dbg filtered).map fun t => filtered.length :: t

/-- `SourceFileLines` / `rustc_span`'s lazily-decompressed line table: either
concrete computed line-start offsets (`Lines`, relative byte positions) or
the still-compressed form (`Diffs`). -/
inductive SourceFileLines
  | lines (l : List Nat)
  | diffs (d : List Nat)
deriving DecidableEq, Repr

/-- `SourceFileLines::is_lines`. -/
def SourceFileLines.is_lines : SourceFileLines → Bool
  | .lines _ => true
  | .diffs _ => false

/-- `rustc_span::SourceFile`: the fields destructured by its `hash_stable`
implementation (`impls_syntax.rs:62-76`).  Values the routine treats as
atoms (name, hashes, character-position entries, cnum) are `Nat`s. -/
structure SourceFile where
  name : Nat
  name_hash : Nat
  cnum : Nat
  src : Option (List Nat)
  src_hash : Nat
  external_src : Nat
  start_pos : Nat
  source_len : Nat
  lines : SourceFileLines
  multibyte_chars : List Nat
  non_narrow_chars : List Nat
  normalized_pos : List Nat
deriving DecidableEq, Repr

/-- `SourceFile::hash_stable` (`impls_syntax.rs:60-111`): assert the line
table is in computed `Lines` form (active in every build, hence no `dbg`
guard), then hash `name_hash`, `src_hash`, the length-prefixed line,
multibyte-char, non-narrow-char and normalized-position tables, and
finally `cnum`. -/
def hashSourceFile (hcx : StableHashingContext) (dbg : Bool)
    (sf : SourceFile) : Option (List Nat) :=
  match sf.lines with
  | .diffs _ => none
  | .lines ls =>
    let t := [sf.name_hash]
    let t := t ++ [sf.src_hash]
    let t := t ++ ls.length :: ls
    let t := t ++ sf.multibyte_chars.length :: sf.multibyte_chars
    let t := t ++ sf.non_narrow_chars.length :: sf.non_narrow_chars
    let t := t ++ sf.normalized_pos.length :: sf.normalized_pos
    some (t ++ [sf.cnum])

/-- `rustc_feature::Features`.
Modelled from the spec: the struct is macro-generated outside the sampled
sources; per the spec it exposes two explicit collections
(declared language features and declared library features, each element an
atom here) plus the dynamically-shaped remainder of named feature fields as
`(name, value)` pairs in a fixed declaration order. -/
structure Features where
  declared_lang_features : List Nat
  declared_lib_features : List Nat
  other_features : List (Nat × Bool)
deriving DecidableEq, Repr

/-- `Features::walk_feature_fields`.
Modelled from the spec: drives a callback over every other named feature
field in the fixed enumeration order; the callback returns the trace chunk
it feeds to the hasher and the walk concatenates the chunks in visit
order. -/
def Features.walk_feature_fields (ft : Features)
    (f : Nat → Bool → List Nat) : List Nat :=
  (ft.other_features.map fun p => f p.1 p.2).flatten

/-- The data a `Bool` feature value feeds to the hasher. -/
def boolTok (b : Bool) : Nat := if b then 1 else 0

/-- Trace of a length-prefixed sequence of atoms (`Vec`/slice
`hash_stable`): the length, then the elements in order. -/
def seqTrace (l : List Nat) : List Nat := l.length :: l

/-- `Features::hash_stable` (`impls_syntax.rs:113-125`): hash the declared
language features, the declared library features, then walk the remaining
feature fields, hashing each field's name and value. -/
def hashFeatures (hcx : StableHashingContext) (ft : Features) : List Nat :=
  seqTrace ft.declared_lang_features ++
    seqTrace ft.declared_lib_features ++
    ft.walk_feature_fields fun feature_name value => [feature_name, boolTok value]

/-! ## Concrete session data used by witnesses and counterexamples -/

/-- A concrete hashing context whose policy ignores exactly the attribute
name `100`. -/
def ctxEx : StableHashingContext :=
  ⟨fun n => n == 100⟩

/-- A concrete documentation-comment attribute. -/
def docAttrEx : Attribute :=
  ⟨.docComment 0 7, 1, .outer, 10⟩

/-- A concrete normal attribute whose name `100` the policy of `ctxEx`
ignores (token stream already removed). -/
def ignoredAttrEx : Attribute :=
  ⟨.normal ⟨⟨[100], 5⟩, none⟩, 2, .outer, 11⟩

/-- A concrete significant normal attribute (token stream already
removed). -/
def sigAttrEx : Attribute :=
  ⟨.normal ⟨⟨[3], 6⟩, none⟩, 3, .outer, 12⟩

/-- A concrete normal attribute still carrying a raw token stream. -/
def tokAttrEx : Attribute :=
  ⟨.normal ⟨⟨[4], 6⟩, some [9, 9]⟩, 4, .outer, 13⟩

/-! ## Helper lemmas -/

/-- Unfolding `hashAttrList` on a non-empty list. -/
theorem hashAttrList_ne_nil (hcx : StableHashingContext) (dbg : Bool)
    {l : List Attribute} (h : l ≠ []) :
    hashAttrList hcx dbg l =
      (hashAttrs hcx dbg (filteredAttrs hcx l)).map
        fun t => (filteredAttrs hcx l).length :: t := by
  unfold hashAttrList
  rw [if_neg]
  simp [List.isEmpty_eq_false.mpr h]

/-- `hashAttrList` on the empty list. -/
theorem hashAttrList_nil (hcx : StableHashingContext) (dbg : Bool) :
    hashAttrList hcx dbg [] = some [0] := rfl

/-! ## C1: the fingerprint of a non-empty attribute list depends only on
its filtered subsequence -/

/-- C1: for non-empty attribute lists, the `hash_stable` trace is a
function of the filtered subsequence alone, so a list holding one doc
comment, one policy-ignored attribute and one significant attribute hashes
exactly like the list holding only the significant attribute (see the
witness). -/
theorem attrList_hash_depends_only_on_filtered
    (hcx : StableHashingContext) (dbg : Bool) {l1 l2 : List Attribute}
    (h1 : l1 ≠ []) (h2 : l2 ≠ [])
    (hf : filteredAttrs hcx l1 = filteredAttrs hcx l2) :
    hashAttrList hcx dbg l1 = hashAttrList hcx dbg l2 := by
  rw [hashAttrList_ne_nil hcx dbg h1, hashAttrList_ne_nil hcx dbg h2, hf]

/-- C1 witness: `[doc, ignored, significant]` fingerprints exactly like
`[significant]` under the concrete policy `ctxEx`. -/
theorem attrList_hash_depends_only_on_filtered_witness :
    hashAttrList ctxEx true [docAttrEx, ignoredAttrEx, sigAttrEx] =
      hashAttrList ctxEx true [sigAttrEx] :=
  attrList_hash_depends_only_on_filtered ctxEx true
    (by decide) (by decide) (by decide)

/-! ## C2: the empty list's fingerprint versus non-empty lists -/

/-- C2 counterexample: the claim "the empty list's fingerprint is distinct
from the fingerprint of every non-empty list" is false: the non-empty list
holding one doc comment feeds the hasher exactly the empty list's trace. -/
theorem empty_list_hash_not_always_distinct :
    [docAttrEx] ≠ ([] : List Attribute) ∧
      hashAttrList ctxEx false [docAttrEx] = hashAttrList ctxEx false [] := by
  constructor
  · decide
  · decide

/-- C2 (amended): the empty attribute list's fingerprint (the single
zero-length marker) is distinct from the fingerprint of every non-empty
list that contains at least one significant (neither doc-comment nor
policy-ignored) attribute. -/
theorem empty_list_hash_distinct_from_significant
    (hcx : StableHashingContext) (dbg : Bool) {l : List Attribute}
    {a : Attribute} (ha : a ∈ l) (hsig : significantAttr hcx a = true) :
    hashAttrList hcx dbg l ≠ hashAttrList hcx dbg [] := by
  have hne : l ≠ [] := by
    intro h
    subst h
    exact absurd ha (List.not_mem_nil a)
  rw [hashAttrList_ne_nil hcx dbg hne, hashAttrList_nil]
  have hmem : a ∈ filteredAttrs hcx l :=
    List.mem_filter.mpr ⟨ha, hsig⟩
  have hlen : (filteredAttrs hcx l).length ≠ 0 := by
    intro h0
    rw [List.length_eq_zero] at h0
    rw [h0] at hmem
    exact absurd hmem (List.not_mem_nil a)
  cases hres : hashAttrs hcx dbg (filteredAttrs hcx l) with
  | none => simp
  | some t =>
    simp only [Option.map_some', ne_eq, Option.some.injEq]
    intro hcons
    injection hcons with hhead htail
    exact hlen hhead

/-- C2 amended witness: the list `[significant]` fingerprints differently
from the empty list. -/
theorem empty_list_hash_distinct_from_significant_witness :
    hashAttrList ctxEx true [sigAttrEx] ≠ hashAttrList ctxEx true [] :=
  empty_list_hash_distinct_from_significant ctxEx true
    (List.mem_singleton.mpr rfl) (by decide)

/-! ## C3: a non-empty, fully-filtered list hashes like the empty list -/

/-- C3: a non-empty attribute list in which every attribute is a doc
comment or policy-ignored feeds the hasher only the zero length of the
filtered sequence, the exact trace of the empty list. -/
theorem all_filtered_hashes_like_empty
    (hcx : StableHashingContext) (dbg : Bool) {l : List Attribute}
    (hne : l ≠ []) (hall : ∀ a ∈ l, significantAttr hcx a = false) :
    hashAttrList hcx dbg l = hashAttrList hcx dbg [] := by
  rw [hashAttrList_ne_nil hcx dbg hne, hashAttrList_nil]
  have hnil : filteredAttrs hcx l = [] := by
    unfold filteredAttrs
    rw [List.filter_eq_nil_iff]
    intro a ha
    simp [hall a ha]
  rw [hnil]
  rfl

/-- C3 witness: `[doc, ignored]` is non-empty yet fingerprints exactly
like the empty list under `ctxEx`. -/
theorem all_filtered_hashes_like_empty_witness :
    hashAttrList ctxEx true [docAttrEx, ignoredAttrEx] =
      hashAttrList ctxEx true [] :=
  all_filtered_hashes_like_empty ctxEx true (by decide) (by decide)

/-! ## C4: the SourceFile fingerprint combines exactly the semantic
fields, in fixed order -/

/-- C4: for a `SourceFile` whose line table is in computed `Lines` form,
`hash_stable` feeds the hasher exactly the name fingerprint, the content
fingerprint, the count then the values of the line-start offsets, the
count then the values of the multibyte-character positions, the count then
the values of the non-narrow-character positions, the count then the
values of the normalized-position entries, and finally `cnum` — an
expression in those fields alone, so no other field contributes. -/
theorem sourceFile_hash_fields_in_order
    (hcx : StableHashingContext) (dbg : Bool) (sf : SourceFile)
    {ls : List Nat} (h : sf.lines = .lines ls) :
    hashSourceFile hcx dbg sf =
      some ([sf.name_hash, sf.src_hash] ++
        (ls.length :: ls) ++
        (sf.multibyte_chars.length :: sf.multibyte_chars) ++
        (sf.non_narrow_chars.length :: sf.non_narrow_chars) ++
        (sf.normalized_pos.length :: sf.normalized_pos) ++
        [sf.cnum]) := by
  unfold hashSourceFile
  rw [h]
  simp

/-- A concrete source file with a computed line table. -/
def sfEx : SourceFile :=
  { name := 1, name_hash := 2, cnum := 3, src := some [7, 8],
    src_hash := 4, external_src := 5, start_pos := 6, source_len := 2,
    lines := .lines [0, 1], multibyte_chars := [9],
    non_narrow_chars := [], normalized_pos := [11] }

/-- C4 witness: the concrete trace of `sfEx`. -/
theorem sourceFile_hash_fields_in_order_witness :
    hashSourceFile ctxEx true sfEx =
      some ([2, 4] ++ (2 :: [0, 1]) ++ (1 :: [9]) ++ (0 :: []) ++
        (1 :: [11]) ++ [3]) :=
  sourceFile_hash_fields_in_order ctxEx true sfEx rfl

/-! ## C5: excluded SourceFile fields do not influence the fingerprint -/

/-- C5: two `SourceFile`s agreeing on `name_hash`, `src_hash`, the line
table, the multibyte/non-narrow/normalized tables and `cnum` fingerprint
identically, whatever their `name`, `src`, `external_src`, `start_pos` and
`source_len` — the excluded fields do not influence the output. -/
theorem sourceFile_hash_ignores_excluded_fields
    (hcx : StableHashingContext) (dbg : Bool) {f1 f2 : SourceFile}
    (hname : f1.name_hash = f2.name_hash)
    (hsrc : f1.src_hash = f2.src_hash)
    (hlines : f1.lines = f2.lines)
    (hmb : f1.multibyte_chars = f2.multibyte_chars)
    (hnn : f1.non_narrow_chars = f2.non_narrow_chars)
    (hnp : f1.normalized_pos = f2.normalized_pos)
    (hcnum : f1.cnum = f2.cnum) :
    hashSourceFile hcx dbg f1 = hashSourceFile hcx dbg f2 := by
  unfold hashSourceFile
  rw [hlines]
  cases f2.lines with
  | diffs d => rfl
  | lines ls => rw [hname, hsrc, hmb, hnn, hnp, hcnum]

/-- A variant of `sfEx` differing only in the excluded fields: raw path,
raw source text, external-source handle, absolute start offset and source
length. -/
def sfEx' : SourceFile :=
  { sfEx with
    name := 100
    src := none
    external_src := 55
    start_pos := 77
    source_len := 99 }

/-- C5 witness: `sfEx` and `sfEx'` differ in every excluded field yet
fingerprint identically. -/
theorem sourceFile_hash_ignores_excluded_fields_witness :
    hashSourceFile ctxEx true sfEx = hashSourceFile ctxEx true sfEx' :=
  sourceFile_hash_ignores_excluded_fields ctxEx true
    rfl rfl rfl rfl rfl rfl rfl

/-! ## C8: the line-table precondition -/

/-- C8: `SourceFile::hash_stable` is total exactly on files whose line
table is resolved into computed `Lines` form; on an unresolved (`Diffs`)
file the `assert!` aborts (no fingerprint is returned) instead of
producing an error value. -/
theorem sourceFile_hash_total_iff_lines
    (hcx : StableHashingContext) (dbg : Bool) (sf : SourceFile) :
    (hashSourceFile hcx dbg sf).isSome = sf.lines.is_lines := by
  unfold hashSourceFile
  cases sf.lines with
  | lines ls => rfl
  | diffs d => rfl

/-! ## C7: the hash_attr precondition -/

/-- C7: for a normal attribute that is not policy-ignored and whose raw
token stream was removed by lowering, no assertion branch of `hash_attr`
fires and the routine totally combines the attribute's item, style and
span; an attribute still carrying raw tokens aborts with an unrecoverable
internal-invariant failure (no trace is produced) in any build mode. -/
theorem hash_attr_precondition
    (hcx : StableHashingContext) (dbg : Bool) :
    (∀ (a : Attribute) (n : NormalAttr),
      a.kind = .normal n → n.tokens = none →
      (a.ident.any fun i => hcx.is_ignored_attr i) = false →
      hashAttr hcx dbg a = some (normalAttrTrace n.item a.style a.span)) ∧
    (∀ (a : Attribute) (n : NormalAttr) (ts : List Nat),
      a.kind = .normal n → n.tokens = some ts →
      hashAttr hcx dbg a = none) := by
  constructor
  · intro a n hkind htok hign
    have hdoc : a.is_doc_comment = false := by
      unfold Attribute.is_doc_comment
      rw [hkind]
    unfold hashAttr
    rw [hign, hdoc, Bool.and_false, hkind]
    simp [htok]
  · intro a n ts hkind htok
    unfold hashAttr
    split
    · rfl
    · split
      · rfl
      · rw [hkind]
        simp [htok]

/-- C7 witness: the concrete significant attribute hashes to its
item/style/span trace, while the concrete attribute still carrying tokens
aborts. -/
theorem hash_attr_precondition_witness :
    hashAttr ctxEx true sigAttrEx =
      some (normalAttrTrace ⟨[3], 6⟩ .outer 12) ∧
    hashAttr ctxEx true tokAttrEx = none :=
  ⟨(hash_attr_precondition ctxEx true).1 sigAttrEx ⟨⟨[3], 6⟩, none⟩
      rfl rfl (by decide),
    (hash_attr_precondition ctxEx true).2 tokAttrEx ⟨⟨[4], 6⟩, some [9, 9]⟩
      [9, 9] rfl rfl⟩

/-! ## C9: which assertions are debug-only -/

/-- A concrete source file whose line table is still in compressed
`Diffs` form. -/
def sfDiffsEx : SourceFile :=
  { sfEx with lines := .diffs [0, 1] }

/-- C9 counterexample: the claim that the precondition checks are compiled
out of release builds is false: with debug assertions off (`dbg = false`)
a leftover raw token stream still aborts `hash_attr` (the
`assert_matches!` is active in every build), and an unresolved line table
still aborts `SourceFile::hash_stable` (the `assert!` is active in every
build). -/
theorem precondition_checks_active_in_release :
    hashAttr ctxEx false tokAttrEx = none ∧
      hashSourceFile ctxEx false sfDiffsEx = none := by
  constructor
  · decide
  · decide

/-- C9 (amended): only the filter-completeness checks are debug-only — a
policy-ignored normal (token-free) attribute aborts `hash_attr` in debug
builds but hashes successfully in release builds — while the precondition
checks are always-active assertions: a leftover raw token stream and an
unresolved line table abort in both build modes. -/
theorem filter_checks_debug_only_precondition_checks_always
    (hcx : StableHashingContext) :
    (∀ (a : Attribute) (n : NormalAttr),
      a.kind = .normal n → n.tokens = none →
      (a.ident.any fun i => hcx.is_ignored_attr i) = true →
      hashAttr hcx true a = none ∧
        hashAttr hcx false a =
          some (normalAttrTrace n.item a.style a.span)) ∧
    (∀ (dbg : Bool) (a : Attribute) (n : NormalAttr) (ts : List Nat),
      a.kind = .normal n → n.tokens = some ts →
      hashAttr hcx dbg a = none) ∧
    (∀ (dbg : Bool) (sf : SourceFile),
      sf.lines.is_lines = false → hashSourceFile hcx dbg sf = none) := by
  refine ⟨?_, ?_, ?_⟩
  · intro a n hkind htok hign
    constructor
    · unfold hashAttr
      rw [hign]
      simp
    · have hdoc : a.is_doc_comment = false := by
        unfold Attribute.is_doc_comment
        rw [hkind]
      unfold hashAttr
      rw [hkind]
      simp [htok]
  · intro dbg a n ts hkind htok
    unfold hashAttr
    split
    · rfl
    · split
      · rfl
      · rw [hkind]
        simp [htok]
  · intro dbg sf hdiffs
    unfold hashSourceFile
    cases hsf : sf.lines with
    | lines ls =>
      rw [hsf] at hdiffs
      exact absurd hdiffs (by simp [SourceFileLines.is_lines])
    | diffs d => rfl

/-- C9 amended witness: the ignored attribute aborts only in debug mode;
the token-carrying attribute and the unresolved source file abort in
release mode too. -/
theorem filter_checks_debug_only_witness :
    (hashAttr ctxEx true ignoredAttrEx = none ∧
      hashAttr ctxEx false ignoredAttrEx =
        some (normalAttrTrace ⟨[100], 5⟩ .outer 11)) ∧
    hashAttr ctxEx false tokAttrEx = none ∧
    hashSourceFile ctxEx false sfDiffsEx = none :=
  ⟨(filter_checks_debug_only_precondition_checks_always ctxEx).1
      ignoredAttrEx ⟨⟨[100], 5⟩, none⟩ rfl rfl (by decide),
    (filter_checks_debug_only_precondition_checks_always ctxEx).2.1
      false tokAttrEx ⟨⟨[4], 6⟩, some [9, 9]⟩ [9, 9] rfl rfl,
    (filter_checks_debug_only_precondition_checks_always ctxEx).2.2
      false sfDiffsEx (by decide)⟩

/-! ## C10: the Features fingerprint -/

/-- C10: `Features::hash_stable` feeds the hasher the declared-language
feature collection (length-prefixed), then the declared-library feature
collection (length-prefixed), then drives `walk_feature_fields` over the
remaining named feature fields, contributing each field's `(name, value)`
pair in the enumeration's order. -/
theorem features_hash_order (hcx : StableHashingContext) (ft : Features) :
    hashFeatures hcx ft =
      (ft.declared_lang_features.length :: ft.declared_lang_features) ++
        (ft.declared_lib_features.length :: ft.declared_lib_features) ++
        (ft.other_features.map fun p => [p.1, boolTok p.2]).flatten := by
  rfl

/-! ## C6: length-prefixed sequences and boundary safety -/

/-- An attribute whose raw token stream has been removed by lowering
(and which is therefore a normal attribute). -/
def Attribute.lowered (a : Attribute) : Bool :=
  match a.kind with
  | .normal n => n.tokens.isNone
  | .docComment _ _ => false

/-- The hashed content of an attribute: its kind, style and span (the
`id` field is never hashed). -/
def attrContent (a : Attribute) : AttrKind × AttrStyle × Nat :=
  (a.kind, a.style, a.span)

/-- The trace a lowered normal attribute contributes inside a list. -/
def attrTraceOf (a : Attribute) : List Nat :=
  match a.kind with
  | .normal n => normalAttrTrace n.item a.style a.span
  | .docComment _ _ => []

/-- The flattened form of a normal attribute's trace: the path length,
then the path segments, the argument atom, the style and the span. -/
theorem normalAttrTrace_eq (item : AttrItem) (s : AttrStyle) (sp : Nat) :
    normalAttrTrace item s sp =
      item.path.length :: (item.path ++ [item.args, styleTok s, sp]) := by
  simp [normalAttrTrace, hashAttrItem]

/-- `styleTok` is injective. -/
theorem styleTok_inj {s1 s2 : AttrStyle} (h : styleTok s1 = styleTok s2) :
    s1 = s2 := by
  cases s1 <;> cases s2 <;> simp_all [styleTok]

/-- A normal attribute's trace is injective in its item, style and span. -/
theorem normalAttrTrace_inj {i1 i2 : AttrItem} {s1 s2 : AttrStyle}
    {p1 p2 : Nat} (h : normalAttrTrace i1 s1 p1 = normalAttrTrace i2 s2 p2) :
    i1 = i2 ∧ s1 = s2 ∧ p1 = p2 := by
  rw [normalAttrTrace_eq, normalAttrTrace_eq] at h
  injection h with hlen htail
  obtain ⟨hpath, hrest⟩ := List.append_inj htail hlen
  simp only [List.cons.injEq, and_true] at hrest
  obtain ⟨hargs, hst, hsp⟩ := hrest
  refine ⟨?_, styleTok_inj hst, hsp⟩
  cases i1
  cases i2
  simp_all

/-- A lowered attribute is a normal attribute without tokens. -/
theorem lowered_normal {a : Attribute} (h : a.lowered = true) :
    ∃ n : NormalAttr, a.kind = .normal n ∧ n.tokens = none := by
  unfold Attribute.lowered at h
  cases hk : a.kind with
  | normal n =>
    rw [hk] at h
    exact ⟨n, rfl, Option.isNone_iff_eq_none.mp h⟩
  | docComment k s =>
    rw [hk] at h
    simp at h

/-- A significant, lowered attribute hashes without any assertion firing,
to its item/style/span trace. -/
theorem hashAttr_of_sig_lowered (hcx : StableHashingContext) (dbg : Bool)
    {a : Attribute} (hsig : significantAttr hcx a = true)
    (hlow : a.lowered = true) :
    hashAttr hcx dbg a = some (attrTraceOf a) := by
  obtain ⟨n, hk, htok⟩ := lowered_normal hlow
  have hsig' : a.is_doc_comment = false ∧
      (a.ident.any fun i => hcx.is_ignored_attr i) = false := by
    simpa [significantAttr] using hsig
  obtain ⟨hdoc, hany⟩ := hsig'
  unfold hashAttr
  rw [hany, hdoc, Bool.and_false, hk]
  simp [htok, attrTraceOf, hk]

/-- The loop over a filtered sequence of significant, lowered attributes
produces the concatenation of the individual traces. -/
theorem hashAttrs_all_sig_lowered (hcx : StableHashingContext) (dbg : Bool)
    {l : List Attribute}
    (h : ∀ a ∈ l, significantAttr hcx a = true ∧ a.lowered = true) :
    hashAttrs hcx dbg l = some ((l.map attrTraceOf).flatten) := by
  induction l with
  | nil => rfl
  | cons a t ih =>
    have ha := h a (List.mem_cons_self a t)
    have ht : ∀ x ∈ t, significantAttr hcx x = true ∧ x.lowered = true :=
      fun x hx => h x (List.mem_cons_of_mem a hx)
    simp only [hashAttrs]
    rw [hashAttr_of_sig_lowered hcx dbg ha.1 ha.2, ih ht]
    simp

/-- The full attribute-list trace for significant, lowered attributes:
the length prefix, then each element's trace in order. -/
theorem hashAttrList_sig_lowered (hcx : StableHashingContext) (dbg : Bool)
    {l : List Attribute}
    (h : ∀ a ∈ l, significantAttr hcx a = true ∧ a.lowered = true) :
    hashAttrList hcx dbg l =
      some (l.length :: (l.map attrTraceOf).flatten) := by
  cases l with
  | nil => rfl
  | cons a t =>
    rw [hashAttrList_ne_nil hcx dbg (by simp)]
    have hfilt : filteredAttrs hcx (a :: t) = a :: t := by
      unfold filteredAttrs
      rw [List.filter_eq_self]
      intro x hx
      exact (h x hx).1
    rw [hfilt, hashAttrs_all_sig_lowered hcx dbg h]
    rfl

/-- Concatenated length-prefixed attribute traces are uniquely decodable:
equal flattened traces of equally long lists of lowered attributes force
the hashed contents to agree elementwise. -/
theorem attrTrace_flatten_decode (l1 : List Attribute) :
    ∀ l2 : List Attribute,
      (∀ a ∈ l1, a.lowered = true) → (∀ a ∈ l2, a.lowered = true) →
      l1.length = l2.length →
      (l1.map attrTraceOf).flatten = (l2.map attrTraceOf).flatten →
      l1.map attrContent = l2.map attrContent := by
  induction l1 with
  | nil =>
    intro l2 _ _ hlen _
    have h2 : l2 = [] := List.length_eq_zero.mp hlen.symm
    rw [h2]
  | cons a1 t1 ih =>
    intro l2 h1 h2 hlen hfl
    cases l2 with
    | nil => simp at hlen
    | cons a2 t2 =>
      obtain ⟨n1, hk1, htk1⟩ := lowered_normal (h1 a1 (List.mem_cons_self a1 t1))
      obtain ⟨n2, hk2, htk2⟩ := lowered_normal (h2 a2 (List.mem_cons_self a2 t2))
      have ht1 : attrTraceOf a1 = normalAttrTrace n1.item a1.style a1.span := by
        simp [attrTraceOf, hk1]
      have ht2 : attrTraceOf a2 = normalAttrTrace n2.item a2.style a2.span := by
        simp [attrTraceOf, hk2]
      simp only [List.map_cons, List.flatten_cons] at hfl
      rw [ht1, ht2, normalAttrTrace_eq, normalAttrTrace_eq] at hfl
      simp only [List.cons_append] at hfl
      injection hfl with hh htl
      obtain ⟨hx, hflt⟩ := List.append_inj htl (by simp [hh])
      obtain ⟨hpath, hrest⟩ := List.append_inj hx hh
      simp only [List.cons.injEq, and_true] at hrest
      obtain ⟨hargs, hst, hsp⟩ := hrest
      have hstyle : a1.style = a2.style := styleTok_inj hst
      have hitem : n1.item = n2.item := by
        have e1 : n1.item = ⟨n1.item.path, n1.item.args⟩ := rfl
        have e2 : n2.item = ⟨n2.item.path, n2.item.args⟩ := rfl
        rw [e1, e2, hpath, hargs]
      have hn : n1 = n2 := by
        have e1 : n1 = ⟨n1.item, n1.tokens⟩ := rfl
        have e2 : n2 = ⟨n2.item, n2.tokens⟩ := rfl
        rw [e1, e2, hitem, htk1, htk2]
      have hkind : a1.kind = a2.kind := by
        rw [hk1, hk2, hn]
      have htail : t1.map attrContent = t2.map attrContent :=
        ih t2 (fun x hx => h1 x (List.mem_cons_of_mem a1 hx))
          (fun x hx => h2 x (List.mem_cons_of_mem a2 hx))
          (by simpa using hlen) hflt
      simp [attrContent, hkind, hstyle, hsp, htail]

/-- C6: variable-length attribute sequences are hashed length-prefix
first, then elements (each element's own variable-length path again
length-prefixed), so two lists of significant, lowered attributes with
distinct hashed contents — even contents that would coincide under naive
length-free concatenation, such as `[A, AB]` versus `[AA, B]` — feed the
hasher different input streams and hence fingerprint differently. -/
theorem sequence_boundary_safety (hcx : StableHashingContext) (dbg : Bool)
    {l1 l2 : List Attribute}
    (h1 : ∀ a ∈ l1, significantAttr hcx a = true ∧ a.lowered = true)
    (h2 : ∀ a ∈ l2, significantAttr hcx a = true ∧ a.lowered = true)
    (hne : l1.map attrContent ≠ l2.map attrContent) :
    hashAttrList hcx dbg l1 ≠ hashAttrList hcx dbg l2 := by
  intro heq
  rw [hashAttrList_sig_lowered hcx dbg h1,
    hashAttrList_sig_lowered hcx dbg h2] at heq
  injection heq with heq'
  injection heq' with hlen hfl
  exact hne (attrTrace_flatten_decode l1 l2
    (fun a ha => (h1 a ha).2) (fun a ha => (h2 a ha).2) hlen hfl)

/-- The `[A, AB]` side of the boundary-safety example: one attribute with
path `[7]` and one with path `[7, 8]`. -/
def attrsAB : List Attribute :=
  [⟨.normal ⟨⟨[7], 0⟩, none⟩, 0, .outer, 0⟩,
   ⟨.normal ⟨⟨[7, 8], 0⟩, none⟩, 0, .outer, 0⟩]

/-- The `[AA, B]` side: one attribute with path `[7, 7]` and one with path
`[8]`; the concatenated path segments coincide with those of `attrsAB`. -/
def attrsAAB : List Attribute :=
  [⟨.normal ⟨⟨[7, 7], 0⟩, none⟩, 0, .outer, 0⟩,
   ⟨.normal ⟨⟨[8], 0⟩, none⟩, 0, .outer, 0⟩]

/-- C6 witness: `[A, AB]` and `[AA, B]` would collide under length-free
concatenation of their path segments, yet fingerprint differently. -/
theorem sequence_boundary_safety_witness :
    hashAttrList ctxEx false attrsAB ≠ hashAttrList ctxEx false attrsAAB :=
  sequence_boundary_safety ctxEx false (by decide) (by decide) (by decide)
